import Mathlib

/-!
# Verification of the voice2code diarization core

Shallow embedding of the speaker-diarization core of the repository:
segment merging (`LocalDiarization._merge_consecutive_segments`),
speaker-count estimation (`LocalDiarization.estimate_speakers`),
clustering orchestration (`LocalDiarization.cluster_speakers` /
`LocalDiarization.diarize`), hybrid method selection with fallback
(`HybridDiarization.diarize`, `PyAnnoteDiarization.diarize`), and the
transcript/speaker alignment engine (`MeetingTranscriber`).

Times are modelled as exact rationals and speaker labels as strings, as
in the source.  External numeric libraries (librosa, sklearn, the
pyannote pipeline) are modelled as explicit parameters: an inertia
oracle for k-means, a fallible clustering backend, and a fallible
pipeline run; exceptions are modelled with `Except`.
-/

/-- Python's built-in `abs` on exact numbers. -/
def ratAbs (q : ℚ) : ℚ := if q < 0 then -q else q

/-- A diarization segment dict `{"start": ..., "end": ..., "speaker": ...}`.
The `"end"` key is modelled by the field `stop` because `end` is a Lean
keyword. -/
structure Seg where
  start : ℚ
  stop : ℚ
  speaker : String
deriving DecidableEq, Repr

/-- The label string `f"Speaker_{label}"` built in
`LocalDiarization.diarize` (src/srv/local_diarization.py line 209). -/
def mkSpeaker (label : ℕ) : String := "Speaker_" ++ Nat.repr label

namespace LocalDiarization

/-- Loop of `LocalDiarization._merge_consecutive_segments`
(src/srv/local_diarization.py lines 236-244): walks the remaining
segments, keeping the currently open segment `last` and the
already-closed segments `done` (in reverse order).  A segment is
absorbed into `last` exactly when its speaker equals `last`'s speaker
and `abs(seg["start"] - last_seg["end"]) < tolerance`; the source
compares against `self.hop_length * 1.5`. -/
def mergeLoop (tol : ℚ) (last : Seg) (done : List Seg) : List Seg → List Seg
  | [] => (last :: done).reverse
  | seg :: rest =>
    if seg.speaker = last.speaker ∧ ratAbs (seg.start - last.stop) < tol then
      mergeLoop tol { last with stop := seg.stop } done rest
    else
      mergeLoop tol seg (last :: done) rest

/-- Source `LocalDiarization._merge_consecutive_segments`
(src/srv/local_diarization.py lines 221-246), with the tolerance
`self.hop_length * 1.5` passed explicitly. -/
def merge_consecutive_segments (tol : ℚ) : List Seg → List Seg
  | [] => []
  | s0 :: rest => mergeLoop tol s0 [] rest

/-- Equivalent head-recursive presentation of
`merge_consecutive_segments`, used for the proofs. -/
def mergeRec (tol : ℚ) : List Seg → List Seg
  | [] => []
  | [s] => [s]
  | s0 :: s1 :: rest =>
    if s1.speaker = s0.speaker ∧ ratAbs (s1.start - s0.stop) < tol then
      mergeRec tol ({ s0 with stop := s1.stop } :: rest)
    else
      s0 :: mergeRec tol (s1 :: rest)
termination_by xs => xs.length

/-- First difference of a sequence, `np.diff(xs)`. -/
def diff1 : List ℚ → List ℚ
  | x :: y :: rest => (y - x) :: diff1 (y :: rest)
  | _ => []

/-- Second-order discrete difference, `np.diff(xs, 2)`. -/
def diff2 (xs : List ℚ) : List ℚ := diff1 (diff1 xs)

/-- Loop of `np.argmax`: scan with the running maximum and the index of
its first occurrence (numpy keeps the first occurrence because it only
updates on a strictly greater element). -/
def argmaxLoop : List ℚ → ℕ → ℚ → ℕ → ℕ
  | [], _, _, bestIdx => bestIdx
  | x :: rest, i, bestVal, bestIdx =>
    if bestVal < x then argmaxLoop rest (i + 1) x i
    else argmaxLoop rest (i + 1) bestVal bestIdx

/-- Index of the first occurrence of the maximum, `np.argmax` (the empty
case is never reached at the call site, which guards on length). -/
def argmax : List ℚ → ℕ
  | [] => 0
  | x :: rest => argmaxLoop rest 1 x 0

/-- Source `LocalDiarization.estimate_speakers`
(src/srv/local_diarization.py lines 107-139).  The k-means inertia for
each `k` (an external sklearn computation on the given feature matrix)
is abstracted as the oracle `inertia`; `n_features` is `len(features)`.
Python's `range(1, min(max_speakers + 1, len(features) + 1))` is the
list `List.range' 1 (min max_speakers n_features)`. -/
def estimate_speakers (inertia : ℕ → ℚ) (n_features max_speakers : ℕ) : ℕ :=
  if n_features < 2 then 1
  else
    let inertias := (List.range' 1 (min max_speakers n_features)).map inertia
    if inertias.length < 2 then 1
    else
      let d2 := diff2 inertias
      if 0 < d2.length then min (argmax d2 + 2) max_speakers
      else 2

/-- Source `LocalDiarization.cluster_speakers`
(src/srv/local_diarization.py lines 141-176).  The scaler/PCA/Ward
pipeline, an external sklearn computation that may raise, is abstracted
as `backend`, a function of the cluster count; `estimated` abstracts
`self.estimate_speakers(features_scaled)`.  Python's
`self.n_speakers or self.estimate_speakers(...)` treats both `None` and
`0` as absent.  Exceptions raised by the backend propagate: there is no
handler in the source function. -/
def cluster_speakers (backend : ℕ → Except String (List ℕ))
    (ctor_n_speakers : Option ℕ) (estimated : ℕ) (n_features : ℕ) :
    Except String (List ℕ) :=
  if n_features = 0 then .ok []
  else
    let n := match ctor_n_speakers with
      | some n => if n = 0 then estimated else n
      | none => estimated
    backend n

end LocalDiarization

/-- A diarization result dict.  `total_speakers` and `error` and
`method_used` are optional keys (the error dict built in
`LocalDiarization.diarize` has no `total_speakers` key). -/
structure DResult where
  segments : List Seg
  speakers : List String
  total_speakers : Option ℕ
  error : Option String
  method_used : Option String
deriving DecidableEq, Repr

namespace LocalDiarization

/-- Result formatting of `LocalDiarization.diarize`
(src/srv/local_diarization.py lines 203-219): label each time window,
merge consecutive same-speaker segments with tolerance
`self.hop_length * 1.5`, and collect `list(set(...))` of the speakers
(modelled as `dedup`, which keeps exactly the distinct elements) and
`len(set(labels))`. -/
def format_result (hop : ℚ) (time_windows : List (ℚ × ℚ)) (labels : List ℕ) : DResult :=
  let segments := List.zipWith (fun (w : ℚ × ℚ) (l : ℕ) => Seg.mk w.1 w.2 (mkSpeaker l)) time_windows labels
  let merged := merge_consecutive_segments (hop * (3 / 2)) segments
  { segments := merged
    speakers := (merged.map Seg.speaker).dedup
    total_speakers := some labels.dedup.length
    error := none
    method_used := none }

/-- Source `LocalDiarization.diarize` (src/srv/local_diarization.py
lines 178-219).  `extract_features` never raises (it catches internally
and returns empty lists); its output is the pair
`(features, time_windows)`, of which only `len(features)` and the
windows are consumed here, so features are passed as their count.  When
no features were extracted the error dict of line 192 is returned;
otherwise `cluster_speakers` runs, and an exception from it propagates
to the caller (there is no try/except in `diarize`). -/
def diarize (n_features : ℕ) (time_windows : List (ℚ × ℚ))
    (backend : ℕ → Except String (List ℕ)) (ctor_n_speakers : Option ℕ)
    (estimated : ℕ) (hop : ℚ) : Except String DResult :=
  if n_features = 0 then
    .ok { segments := [], speakers := [], total_speakers := none,
          error := some "无法提取音频特征或未检测到语音", method_used := none }
  else
    (cluster_speakers backend ctor_n_speakers estimated n_features).map
      (format_result hop time_windows)

end LocalDiarization

namespace PyAnnoteDiarization

/-- Source `PyAnnoteDiarization.diarize` (src/pyannote_diarization.py
lines 87-167) in the standard, non-chunked mode in which the
orchestrator's `auto` path invokes it.  If the pipeline was never loaded
it raises `RuntimeError` (line 98-99); otherwise the whole body runs
under `try`, and any exception is caught at lines 159-167 and converted
into an error dict.  The external pipeline invocation together with the
result formatting of lines 120-157 is abstracted as `run`. -/
def diarize (pipeline_loaded : Bool) (run : Except String DResult) :
    Except String DResult :=
  if pipeline_loaded then
    match run with
    | .ok r => .ok r
    | .error e =>
      .ok { segments := [], speakers := [], total_speakers := some 0,
            error := some e, method_used := none }
  else
    .error "PyAnnote 模型未正确加载"

end PyAnnoteDiarization

namespace HybridDiarization

/-- Source `HybridDiarization._diarize_with_local`
(src/hybrid_diarization.py lines 97-101): run the local diarizer and
stamp `method_used`. -/
def diarize_with_local (localCall : Except String DResult) : Except String DResult :=
  localCall.map (fun r => { r with method_used := some "local_clustering" })

/-- Source `HybridDiarization.diarize` (src/hybrid_diarization.py lines
56-101) with `force_method=None`.  `pyannote_available` models the
truthiness of `self.pyannote_diarizer`; `pyannoteCall` the behaviour of
`self.pyannote_diarizer.diarize(audio_file)` (which may raise);
`localCall` the behaviour of `self.local_diarizer.diarize(audio_file)`.
`_diarize_with_pyannote` catches any exception of the external call and
falls back to the local method (lines 93-95). -/
def diarize (method : String) (pyannote_available : Bool)
    (pyannoteCall : Except String DResult)
    (localCall : Except String DResult) : Except String DResult :=
  let chosen := if method = "auto" then
    (if pyannote_available then "pyannote" else "local") else method
  if (chosen = "pyannote" ∨ chosen = "pyannote_fast") ∧ pyannote_available then
    match pyannoteCall with
    | .ok r =>
      let m := if chosen = "pyannote_fast" then "pyannote_fast" else "pyannote"
      .ok { r with method_used := some m }
    | .error _ => diarize_with_local localCall
  else
    diarize_with_local localCall

end HybridDiarization

/-- A transcript segment from the ASR collaborator; the `"end"` key is
modelled by `stop`. -/
structure TranscriptSegment where
  start : ℚ
  stop : ℚ
  text : String
deriving DecidableEq, Repr

/-- An aligned segment as built by
`MeetingTranscriber._align_transcription_and_speakers`. -/
structure AlignedSegment where
  start : ℚ
  stop : ℚ
  text : String
  speaker : String
  duration : ℚ
deriving DecidableEq, Repr

namespace MeetingTranscriber

/-- Overlap duration computed in
`MeetingTranscriber._find_best_speaker_overlap`
(src/srv/meeting_transcriber.py lines 190-193):
`max(0, min(asr_end, speaker_end) - max(asr_start, speaker_start))`. -/
def overlap (asr_start asr_end : ℚ) (s : Seg) : ℚ :=
  max 0 (min asr_end s.stop - max asr_start s.start)

/-- Loop of `MeetingTranscriber._find_best_speaker_overlap`
(src/srv/meeting_transcriber.py lines 186-197): the best speaker is
replaced only on a strictly larger overlap. -/
def find_best_loop (asr_start asr_end : ℚ) (max_overlap : ℚ) (best : String) :
    List Seg → String
  | [] => best
  | s :: rest =>
    if max_overlap < overlap asr_start asr_end s then
      find_best_loop asr_start asr_end (overlap asr_start asr_end s) s.speaker rest
    else
      find_best_loop asr_start asr_end max_overlap best rest

/-- Source `MeetingTranscriber._find_best_speaker_overlap`
(src/srv/meeting_transcriber.py lines 168-199): starts from
`max_overlap = 0` and `best_speaker = "Unknown"`. -/
def find_best_speaker_overlap (asr_start asr_end : ℚ) (speaker_segments : List Seg) : String :=
  find_best_loop asr_start asr_end 0 "Unknown" speaker_segments

/-- Source `MeetingTranscriber._align_transcription_and_speakers`
(src/srv/meeting_transcriber.py lines 126-166), restricted to the
`aligned_segments` list it builds (the surrounding dict copies
unrelated keys through). -/
def align_transcription_and_speakers (asr_segments : List TranscriptSegment)
    (speaker_segments : List Seg) : List AlignedSegment :=
  asr_segments.map fun t =>
    { start := t.start
      stop := t.stop
      text := t.text
      speaker := find_best_speaker_overlap t.start t.stop speaker_segments
      duration := t.stop - t.start }

/-- Python's `f"{n:02d}"`: pad the decimal representation with zeros to
width two.  For the values reached here (at most one leading zero is
ever needed) this is a single conditional `"0"` prefix. -/
def pad2 (n : ℤ) : String := if 0 ≤ n ∧ n < 10 then "0" ++ Int.repr n else Int.repr n

/-- Source `MeetingTranscriber._format_timestamp`
(src/srv/meeting_transcriber.py lines 260-272):
`minutes = int(seconds // 60)`, `secs = int(seconds % 60)`,
`f"{minutes:02d}:{secs:02d}"`.  Python's `%` with a positive modulus
returns `seconds - 60 * floor(seconds / 60) ∈ [0, 60)`, on which `int`
truncation is the floor. -/
def format_timestamp (seconds : ℚ) : String :=
  let minutes : ℤ := ⌊seconds / 60⌋
  let secs : ℤ := ⌊seconds - 60 * (minutes : ℚ)⌋
  pad2 minutes ++ ":" ++ pad2 secs

/-- Modelled from the spec: the timestamp format the spec describes
(`MM:SS` when under one hour, `HH:MM:SS` when one hour or more,
zero-padded two-digit fields), for comparison with `format_timestamp`. -/
def format_timestamp_spec (seconds : ℚ) : String :=
  if seconds < 3600 then
    pad2 ⌊seconds / 60⌋ ++ ":" ++ pad2 (⌊seconds⌋ % 60)
  else
    pad2 ⌊seconds / 3600⌋ ++ ":" ++ pad2 (⌊seconds⌋ / 60 % 60) ++ ":" ++ pad2 (⌊seconds⌋ % 60)

end MeetingTranscriber

namespace SegmentMerger

/-- Walk of the spec's §4.4 wording, with the condition on the current
open segment abstracted: the first window starts the first segment and
each subsequent window either extends the current open segment or
starts a new one. -/
def walk (extends_current : Seg → Seg → Bool) : List Seg → List Seg
  | [] => []
  | s0 :: rest =>
    let fin := rest.foldl
      (fun (st : List Seg × Seg) seg =>
        if extends_current st.2 seg then (st.1, { st.2 with stop := seg.stop })
        else (st.2 :: st.1, seg))
      ([], s0)
    (fin.2 :: fin.1).reverse

/-- Modelled from the spec: the merge of §4.4 with the claim's literal
extension condition `window.start − previous_segment.end < tolerance`
(a signed comparison). -/
def merge_signed (tol : ℚ) : List Seg → List Seg :=
  walk fun cur seg => decide (seg.speaker = cur.speaker ∧ seg.start - cur.stop < tol)

/-- Modelled from the spec: the merge of §4.4 with the extension
condition corrected to the absolute gap
`|window.start − previous_segment.end| < tolerance`, as the source
computes it. -/
def merge_abs (tol : ℚ) : List Seg → List Seg :=
  walk fun cur seg => decide (seg.speaker = cur.speaker ∧ ratAbs (seg.start - cur.stop) < tol)

end SegmentMerger

/-- Modelled from the spec: `SpeakerCountEstimator.estimate` exactly as
claim C6 words it — return 1 below two feature vectors, otherwise take
the second difference of the inertias for `k` from 1 to
`min(max_speakers, n_features)` and return its argmax index plus 2
clamped to `max_speakers`, or 2 when the second-difference sequence is
empty.  Unlike the source, it has no separate `len(inertias) < 2`
branch. -/
def estimate_speakers_claimed (inertia : ℕ → ℚ) (n_features max_speakers : ℕ) : ℕ :=
  if n_features < 2 then 1
  else
    let d2 := LocalDiarization.diff2
      ((List.range' 1 (min max_speakers n_features)).map inertia)
    if 0 < d2.length then min (LocalDiarization.argmax d2 + 2) max_speakers
    else 2

/-! ## Segment merging: infrastructure -/

namespace LocalDiarization

theorem mergeLoop_eq (tol : ℚ) (rest : List Seg) : ∀ (last : Seg) (done : List Seg),
    mergeLoop tol last done rest = done.reverse ++ mergeRec tol (last :: rest) := by
  induction rest with
  | nil => intro last done; simp [mergeLoop, mergeRec]
  | cons seg rs ih =>
    intro last done
    by_cases h : seg.speaker = last.speaker ∧ ratAbs (seg.start - last.stop) < tol
    · rw [mergeLoop, if_pos h, ih, mergeRec, if_pos h]
    · rw [mergeLoop, if_neg h, ih, mergeRec, if_neg h]
      simp

theorem merge_eq_mergeRec (tol : ℚ) (xs : List Seg) :
    merge_consecutive_segments tol xs = mergeRec tol xs := by
  cases xs with
  | nil => simp [merge_consecutive_segments, mergeRec]
  | cons s0 rest => rw [merge_consecutive_segments, mergeLoop_eq]; rfl

theorem mergeRec_head (tol : ℚ) (rest : List Seg) : ∀ (s : Seg),
    ∃ c tail, mergeRec tol (s :: rest) = Seg.mk s.start c s.speaker :: tail := by
  induction rest with
  | nil => intro s; exact ⟨s.stop, [], by simp [mergeRec]⟩
  | cons s1 rs ih =>
    intro s
    by_cases h : s1.speaker = s.speaker ∧ ratAbs (s1.start - s.stop) < tol
    · rw [mergeRec, if_pos h]
      obtain ⟨c, tail, ht⟩ := ih { s with stop := s1.stop }
      exact ⟨c, tail, ht⟩
    · rw [mergeRec, if_neg h]
      exact ⟨s.stop, mergeRec tol (s1 :: rs), rfl⟩

theorem mergeRec_chain_gap (tol : ℚ) (xs : List Seg) :
    List.Chain' (fun a b => ¬(b.speaker = a.speaker ∧ ratAbs (b.start - a.stop) < tol))
      (mergeRec tol xs) := by
  induction xs using mergeRec.induct tol with
  | case1 => simp [mergeRec]
  | case2 s => simp [mergeRec]
  | case3 s0 s1 rest h ih => rw [mergeRec, if_pos h]; exact ih
  | case4 s0 s1 rest h ih =>
    rw [mergeRec, if_neg h]
    refine List.chain'_cons'.mpr ⟨?_, ih⟩
    intro y hy
    obtain ⟨c, tail, ht⟩ := mergeRec_head tol rest s1
    rw [ht] at hy
    simp only [List.head?_cons, Option.mem_def, Option.some.injEq] at hy
    subst hy
    simpa using h

theorem mergeRec_sorted (tol : ℚ) (xs : List Seg)
    (hs : List.Chain' (fun a b : Seg => a.start ≤ b.start) xs) :
    List.Chain' (fun a b : Seg => a.start ≤ b.start) (mergeRec tol xs) := by
  induction xs using mergeRec.induct tol with
  | case1 => simp [mergeRec]
  | case2 s => simp [mergeRec]
  | case3 s0 s1 rest h ih =>
    rw [mergeRec, if_pos h]
    apply ih
    rw [List.chain'_cons] at hs
    obtain ⟨h01, hs1⟩ := hs
    rw [List.chain'_cons'] at hs1 ⊢
    refine ⟨?_, hs1.2⟩
    intro y hy
    exact le_trans h01 (hs1.1 y hy)
  | case4 s0 s1 rest h ih =>
    rw [mergeRec, if_neg h]
    rw [List.chain'_cons] at hs
    refine List.chain'_cons'.mpr ⟨?_, ih hs.2⟩
    intro y hy
    obtain ⟨c, tail, ht⟩ := mergeRec_head tol rest s1
    rw [ht] at hy
    simp only [List.head?_cons, Option.mem_def, Option.some.injEq] at hy
    subst hy
    exact hs.1

theorem mergeRec_fixed (tol : ℚ) (xs : List Seg)
    (h : List.Chain' (fun a b => ¬(b.speaker = a.speaker ∧ ratAbs (b.start - a.stop) < tol)) xs) :
    mergeRec tol xs = xs := by
  induction xs using mergeRec.induct tol with
  | case1 => simp [mergeRec]
  | case2 s => simp [mergeRec]
  | case3 s0 s1 rest hc ih =>
    rw [List.chain'_cons] at h
    exact absurd hc h.1
  | case4 s0 s1 rest hc ih =>
    rw [List.chain'_cons] at h
    rw [mergeRec, if_neg hc, ih h.2]

theorem merge_eq_walk_abs (tol : ℚ) (xs : List Seg) :
    merge_consecutive_segments tol xs = SegmentMerger.merge_abs tol xs := by
  have key : ∀ (rest : List Seg) (last : Seg) (done : List Seg),
      mergeLoop tol last done rest =
        (let fin := rest.foldl
          (fun (st : List Seg × Seg) seg =>
            if (fun cur s => decide (s.speaker = cur.speaker ∧ ratAbs (s.start - cur.stop) < tol)) st.2 seg
            then (st.1, { st.2 with stop := seg.stop })
            else (st.2 :: st.1, seg)) (done, last)
         (fin.2 :: fin.1).reverse) := by
    intro rest
    induction rest with
    | nil => intro last done; simp [mergeLoop]
    | cons seg rs ih =>
      intro last done
      by_cases h : seg.speaker = last.speaker ∧ ratAbs (seg.start - last.stop) < tol
      · rw [mergeLoop, if_pos h]
        simp [ih, h]
      · rw [mergeLoop, if_neg h]
        simp [ih, h]
  cases xs with
  | nil => rfl
  | cons s0 rest =>
    rw [merge_consecutive_segments]
    rw [SegmentMerger.merge_abs, SegmentMerger.walk]
    exact key rest s0 []

/-! ## Claims C4, C5, C7: the segment merger -/

/-- Claim C7: for every window/label input and fixed tolerance,
re-running the segment merger on its own output yields exactly the same
segment list (merging is idempotent / a fixed point). -/
theorem C7_merge_idempotent (tol : ℚ) (xs : List Seg) :
    merge_consecutive_segments tol (merge_consecutive_segments tol xs) =
      merge_consecutive_segments tol xs := by
  simp only [merge_eq_mergeRec]
  exact mergeRec_fixed tol _ (mergeRec_chain_gap tol xs)

/-- Claim C4 (amended): for every time-ordered (start-sorted) input the
merger's output is start-sorted, and any two adjacent output segments
either have different speakers or an absolute gap
`|next.start − previous.end|` of at least the tolerance.  (The original
claim's non-overlapping and signed-gap parts fail; see the
counterexample.) -/
theorem C4_merge_invariants (tol : ℚ) (xs : List Seg)
    (h : List.Chain' (fun a b : Seg => a.start ≤ b.start) xs) :
    List.Chain' (fun a b : Seg => a.start ≤ b.start) (merge_consecutive_segments tol xs) ∧
    List.Chain' (fun a b : Seg => a.speaker ≠ b.speaker ∨ tol ≤ ratAbs (b.start - a.stop))
      (merge_consecutive_segments tol xs) := by
  rw [merge_eq_mergeRec]
  refine ⟨mergeRec_sorted tol xs h, (mergeRec_chain_gap tol xs).imp ?_⟩
  intro a b hab
  by_cases hsp : b.speaker = a.speaker
  · right
    by_contra hlt
    exact hab ⟨hsp, lt_of_not_le hlt⟩
  · left
    exact fun e => hsp e.symm

/-- Witness for C4 on the spec's Scenario A windows. -/
theorem C4_merge_invariants_witness :
    List.Chain' (fun a b : Seg => a.start ≤ b.start)
      (merge_consecutive_segments (3/2)
        [⟨0, 2, "Speaker_0"⟩, ⟨1, 3, "Speaker_0"⟩, ⟨2, 4, "Speaker_1"⟩]) ∧
    List.Chain' (fun a b : Seg => a.speaker ≠ b.speaker ∨ 3/2 ≤ ratAbs (b.start - a.stop))
      (merge_consecutive_segments (3/2)
        [⟨0, 2, "Speaker_0"⟩, ⟨1, 3, "Speaker_0"⟩, ⟨2, 4, "Speaker_1"⟩]) :=
  C4_merge_invariants (3/2) _ (by norm_num [List.chain'_cons])

/-- Counterexample to claim C4 as stated: on a time-ordered input the
merged output can contain adjacent segments that overlap, and an
adjacent same-speaker pair whose signed gap is below the tolerance. -/
theorem C4_merge_counterexample :
    merge_consecutive_segments (3/2)
        [⟨0, 10, "Speaker_0"⟩, ⟨5, 6, "Speaker_0"⟩, ⟨5, 7, "Speaker_1"⟩] =
      [⟨0, 10, "Speaker_0"⟩, ⟨5, 6, "Speaker_0"⟩, ⟨5, 7, "Speaker_1"⟩] ∧
    List.Chain' (fun a b : Seg => a.start ≤ b.start)
      [(⟨0, 10, "Speaker_0"⟩ : Seg), ⟨5, 6, "Speaker_0"⟩, ⟨5, 7, "Speaker_1"⟩] ∧
    ¬ List.Chain' (fun a b : Seg => a.stop ≤ b.start)
      [(⟨0, 10, "Speaker_0"⟩ : Seg), ⟨5, 6, "Speaker_0"⟩, ⟨5, 7, "Speaker_1"⟩] ∧
    ¬ List.Chain' (fun a b : Seg => a.speaker ≠ b.speaker ∨ 3/2 ≤ b.start - a.stop)
      [(⟨0, 10, "Speaker_0"⟩ : Seg), ⟨5, 6, "Speaker_0"⟩, ⟨5, 7, "Speaker_1"⟩] := by
  refine ⟨?_, ?_, ?_, ?_⟩
  · norm_num [merge_consecutive_segments, mergeLoop, ratAbs]
    decide
  · norm_num [List.chain'_cons]
  · norm_num [List.chain'_cons]
  · norm_num [List.chain'_cons]

/-- Claim C5 (amended): the merger starts the first segment with the
first window; a subsequent window extends the current open segment
exactly when its speaker matches and the absolute gap
`|window.start − previous_segment.end|` is below the tolerance (the
claim's signed comparison corrected to the source's `abs`), and is
otherwise the start of a new segment; the whole function agrees with
the spec's open-segment walk under the corrected condition. -/
theorem C5_merge_extension_rule (tol : ℚ) (s0 s1 : Seg) (rest : List Seg) :
    merge_consecutive_segments tol [] = [] ∧
    merge_consecutive_segments tol [s0] = [s0] ∧
    merge_consecutive_segments tol (s0 :: s1 :: rest) =
      (if s1.speaker = s0.speaker ∧ ratAbs (s1.start - s0.stop) < tol
       then merge_consecutive_segments tol ({ s0 with stop := s1.stop } :: rest)
       else s0 :: merge_consecutive_segments tol (s1 :: rest)) ∧
    ∀ ys, merge_consecutive_segments tol ys = SegmentMerger.merge_abs tol ys := by
  refine ⟨rfl, by simp [merge_consecutive_segments, mergeLoop], ?_, merge_eq_walk_abs tol⟩
  simp only [merge_eq_mergeRec]
  rw [mergeRec]

/-- Counterexample to claim C5 as stated: with the claim's signed
condition `window.start − previous_segment.end < tolerance` the second
window of a time-ordered input would be merged (its signed gap −5 is
below the tolerance 1.5 = hop_length·1.5), but the source's absolute
comparison starts a new segment instead. -/
theorem C5_merge_counterexample :
    List.Chain' (fun a b : Seg => a.start ≤ b.start)
      [(⟨0, 10, "Speaker_0"⟩ : Seg), ⟨5, 6, "Speaker_0"⟩] ∧
    merge_consecutive_segments (3/2) [⟨0, 10, "Speaker_0"⟩, ⟨5, 6, "Speaker_0"⟩] =
      [⟨0, 10, "Speaker_0"⟩, ⟨5, 6, "Speaker_0"⟩] ∧
    SegmentMerger.merge_signed (3/2) [⟨0, 10, "Speaker_0"⟩, ⟨5, 6, "Speaker_0"⟩] =
      [⟨0, 6, "Speaker_0"⟩] ∧
    ([(⟨0, 10, "Speaker_0"⟩ : Seg), ⟨5, 6, "Speaker_0"⟩] : List Seg) ≠
      [⟨0, 6, "Speaker_0"⟩] := by
  refine ⟨by norm_num [List.chain'_cons], ?_, ?_, by simp⟩
  · norm_num [merge_consecutive_segments, mergeLoop, ratAbs]
  · rw [SegmentMerger.merge_signed, SegmentMerger.walk]
    norm_num

end LocalDiarization

/-! ## Claims C2, C3: the alignment engine -/

namespace MeetingTranscriber

theorem find_best_loop_spec (a b : ℚ) (segs : List Seg) : ∀ (mo : ℚ) (best : String),
    (find_best_loop a b mo best segs = best ∧ ∀ s ∈ segs, overlap a b s ≤ mo) ∨
    (∃ i, ∃ hi : i < segs.length,
      find_best_loop a b mo best segs = (segs.get ⟨i, hi⟩).speaker ∧
      mo < overlap a b (segs.get ⟨i, hi⟩) ∧
      (∀ j, ∀ hj : j < segs.length,
        overlap a b (segs.get ⟨j, hj⟩) ≤ overlap a b (segs.get ⟨i, hi⟩)) ∧
      (∀ j, ∀ hj : j < segs.length, j < i →
        overlap a b (segs.get ⟨j, hj⟩) < overlap a b (segs.get ⟨i, hi⟩))) := by
  induction segs with
  | nil => intro mo best; left; exact ⟨rfl, by simp⟩
  | cons s rest ih =>
    intro mo best
    by_cases h : mo < overlap a b s
    · right
      rw [find_best_loop, if_pos h]
      rcases ih (overlap a b s) s.speaker with ⟨hres, hall⟩ | ⟨i, hi, hres, hmo, hall, hbef⟩
      · refine ⟨0, by simp, by simpa using hres, by simpa using h, ?_, ?_⟩
        · intro j hj
          cases j with
          | zero => simp
          | succ j' =>
            simp only [List.get_cons_succ, List.get_cons_zero]
            exact hall _ (List.get_mem rest _ _)
        · intro j hj hj0
          exact absurd hj0 (Nat.not_lt_zero j)
      · refine ⟨i + 1, Nat.succ_lt_succ hi, by simpa using hres, lt_trans h (by simpa using hmo), ?_, ?_⟩
        · intro j hj
          cases j with
          | zero => simpa using le_of_lt hmo
          | succ j' => simpa using hall j' (Nat.lt_of_succ_lt_succ hj)
        · intro j hj hji
          cases j with
          | zero => simpa using hmo
          | succ j' => simpa using hbef j' (Nat.lt_of_succ_lt_succ hj) (Nat.lt_of_succ_lt_succ hji)
    · rw [find_best_loop, if_neg h]
      rcases ih mo best with ⟨hres, hall⟩ | ⟨i, hi, hres, hmo, hall, hbef⟩
      · left
        refine ⟨hres, ?_⟩
        intro s' hs'
        rcases List.mem_cons.mp hs' with rfl | hmem
        · exact le_of_not_lt h
        · exact hall s' hmem
      · right
        refine ⟨i + 1, Nat.succ_lt_succ hi, by simpa using hres, by simpa using hmo, ?_, ?_⟩
        · intro j hj
          cases j with
          | zero => simpa using le_of_lt (lt_of_le_of_lt (le_of_not_lt h) hmo)
          | succ j' => simpa using hall j' (Nat.lt_of_succ_lt_succ hj)
        · intro j hj hji
          cases j with
          | zero => simpa using lt_of_le_of_lt (le_of_not_lt h) hmo
          | succ j' => simpa using hbef j' (Nat.lt_of_succ_lt_succ hj) (Nat.lt_of_succ_lt_succ hji)

/-- Claim C2: the alignment engine assigns the speaker of the
diarization segment whose overlap duration is strictly largest, scanning
the list in order (so every earlier-scanned segment has strictly smaller
overlap — ties keep the earliest candidate), and assigns the sentinel
`"Unknown"` exactly when no diarization segment has positive overlap. -/
theorem C2_find_best_speaker_spec (a b : ℚ) (segs : List Seg) :
    (find_best_speaker_overlap a b segs = "Unknown" ∧ ∀ s ∈ segs, overlap a b s ≤ 0) ∨
    (∃ i, ∃ hi : i < segs.length,
      find_best_speaker_overlap a b segs = (segs.get ⟨i, hi⟩).speaker ∧
      0 < overlap a b (segs.get ⟨i, hi⟩) ∧
      (∀ j, ∀ hj : j < segs.length,
        overlap a b (segs.get ⟨j, hj⟩) ≤ overlap a b (segs.get ⟨i, hi⟩)) ∧
      (∀ j, ∀ hj : j < segs.length, j < i →
        overlap a b (segs.get ⟨j, hj⟩) < overlap a b (segs.get ⟨i, hi⟩))) :=
  find_best_loop_spec a b segs 0 "Unknown"

/-- Claim C3: alignment produces exactly one aligned segment per
transcript segment, in order, copying `start`, `end` and `text` and
setting `duration = end − start`; hence the total aligned duration is
the total transcript duration. -/
theorem C3_align_preserves_segments (asr : List TranscriptSegment) (spk : List Seg) :
    (align_transcription_and_speakers asr spk).length = asr.length ∧
    (align_transcription_and_speakers asr spk).map (fun al => (al.start, al.stop, al.text)) =
      asr.map (fun t => (t.start, t.stop, t.text)) ∧
    (∀ al ∈ align_transcription_and_speakers asr spk, al.duration = al.stop - al.start) ∧
    ((align_transcription_and_speakers asr spk).map AlignedSegment.duration).sum =
      (asr.map (fun t => t.stop - t.start)).sum := by
  refine ⟨?_, ?_, ?_, ?_⟩
  · simp [align_transcription_and_speakers]
  · simp [align_transcription_and_speakers, List.map_map]
  · intro al hal
    simp only [align_transcription_and_speakers, List.mem_map] at hal
    obtain ⟨t, _, rfl⟩ := hal
    rfl
  · simp [align_transcription_and_speakers, List.map_map]
    rfl

end MeetingTranscriber

/-! ## Claim C6: speaker-count estimation -/

/-- Claim C6 (amended): with fewer than 2 feature vectors the estimator
returns 1; otherwise, whenever `max_speakers ≥ 2`, it behaves exactly as
the claim describes (argmax of the second difference of the inertias
plus 2, clamped, or 2 when the second-difference list is empty).  The
source additionally returns 1—not 2—when fewer than two inertias were
recorded, which happens exactly when `max_speakers ≤ 1`; see the
counterexample. -/
theorem C6_estimate_speakers_amended (inertia : ℕ → ℚ) (n_features max_speakers : ℕ)
    (h : 2 ≤ max_speakers) :
    LocalDiarization.estimate_speakers inertia n_features max_speakers =
      estimate_speakers_claimed inertia n_features max_speakers := by
  unfold LocalDiarization.estimate_speakers estimate_speakers_claimed
  by_cases hn : n_features < 2
  · simp [hn]
  · have hlen : ¬ (((List.range' 1 (min max_speakers n_features)).map inertia).length < 2) := by
      rw [List.length_map, List.length_range']
      push_neg
      exact le_min h (le_of_not_lt hn)
    simp [hn, hlen]
    intro hcon
    exact absurd hcon (not_lt.mpr h)

/-- Witness for C6 at a concrete oracle and sizes. -/
theorem C6_estimate_speakers_witness :
    LocalDiarization.estimate_speakers (fun _ => 0) 5 6 =
      estimate_speakers_claimed (fun _ => 0) 5 6 :=
  C6_estimate_speakers_amended (fun _ => 0) 5 6 (by norm_num)

/-- Counterexample to claim C6 as stated: with two feature vectors and
`max_speakers = 1` only one inertia is recorded, the second-difference
list is empty, and the source returns 1 where the claim requires the
empty-case default 2. -/
theorem C6_estimate_speakers_counterexample :
    LocalDiarization.estimate_speakers (fun _ => 0) 2 1 = 1 ∧
    estimate_speakers_claimed (fun _ => 0) 2 1 = 2 ∧ (1 : ℕ) ≠ 2 := by
  refine ⟨by decide, by decide, by decide⟩

/-! ## Claim C9: timestamp formatting -/

namespace MeetingTranscriber

theorem format_secs_eq (s : ℚ) : ⌊s - 60 * ((⌊s / 60⌋ : ℤ) : ℚ)⌋ = ⌊s⌋ % 60 := by
  have hms : (60 : ℚ) * ((⌊s / 60⌋ : ℤ) : ℚ) = (((60 * ⌊s / 60⌋ : ℤ)) : ℚ) := by
    push_cast
    ring
  rw [hms, Int.floor_sub_int]
  have h1 : 60 * ⌊s / 60⌋ ≤ ⌊s⌋ := by
    rw [Int.le_floor]
    push_cast
    have hf : ((⌊s / 60⌋ : ℤ) : ℚ) ≤ s / 60 := Int.floor_le (s / 60)
    have := (le_div_iff₀ (by norm_num : (0:ℚ) < 60)).mp hf
    linarith
  have h2 : ⌊s⌋ < 60 * ⌊s / 60⌋ + 60 := by
    rw [Int.floor_lt]
    push_cast
    have hf : s / 60 < ((⌊s / 60⌋ : ℤ) : ℚ) + 1 := Int.lt_floor_add_one (s / 60)
    have := (div_lt_iff₀ (by norm_num : (0:ℚ) < 60)).mp hf
    linarith
  have h3 : (⌊s⌋ - 60 * ⌊s / 60⌋) % 60 = ⌊s⌋ % 60 := by
    conv_rhs => rw [show ⌊s⌋ = ⌊s⌋ - 60 * ⌊s / 60⌋ + 60 * ⌊s / 60⌋ by ring]
    rw [Int.add_mul_emod_self_left]
  rw [← h3, Int.emod_eq_of_lt (by omega) (by omega)]

theorem pad2_length_of_lt (k : ℤ) (h0 : 0 ≤ k) (h60 : k < 60) : (pad2 k).length = 2 := by
  have hb : ∀ n : ℕ, n < 60 → (pad2 (n : ℤ)).length = 2 := by decide
  rw [show k = ((k.toNat : ℕ) : ℤ) from (Int.toNat_of_nonneg h0).symm]
  exact hb k.toNat (by omega)

/-- Claim C9 (amended): for every non-negative number of seconds the
timeline timestamp is `MM:SS` with the full minute count
`⌊seconds/60⌋` as the first field (never wrapped at 60 — there is no
`HH:MM:SS` form) and `⌊seconds⌋ mod 60` as the second; under one hour
both fields are two digits (the string has length 5) and the format
agrees with the spec's `MM:SS` description. -/
theorem C9_format_timestamp_amended (s : ℚ) (h : 0 ≤ s) :
    format_timestamp s = pad2 ⌊s / 60⌋ ++ ":" ++ pad2 (⌊s⌋ % 60) ∧
    (s < 3600 →
      (format_timestamp s).length = 5 ∧ format_timestamp s = format_timestamp_spec s) := by
  have hfmt : format_timestamp s = pad2 ⌊s / 60⌋ ++ ":" ++ pad2 (⌊s⌋ % 60) := by
    rw [format_timestamp]
    rw [format_secs_eq]
  refine ⟨hfmt, ?_⟩
  intro hs
  have hm0 : 0 ≤ ⌊s / 60⌋ := Int.floor_nonneg.mpr (by positivity)
  have hm60 : ⌊s / 60⌋ < 60 := by
    rw [Int.floor_lt]
    rw [div_lt_iff₀ (by norm_num : (0:ℚ) < 60)]
    push_cast
    linarith
  have hsec0 : 0 ≤ ⌊s⌋ % 60 := Int.emod_nonneg _ (by norm_num)
  have hsec60 : ⌊s⌋ % 60 < 60 := Int.emod_lt_of_pos _ (by norm_num)
  constructor
  · rw [hfmt]
    rw [String.length_append, String.length_append]
    rw [pad2_length_of_lt _ hm0 hm60, pad2_length_of_lt _ hsec0 hsec60]
    rfl
  · rw [hfmt, format_timestamp_spec, if_pos hs]

/-- Witness for C9 at 90 seconds. -/
theorem C9_format_timestamp_witness :
    format_timestamp 90 = pad2 ⌊(90:ℚ) / 60⌋ ++ ":" ++ pad2 (⌊(90:ℚ)⌋ % 60) ∧
    ((90:ℚ) < 3600 →
      (format_timestamp 90).length = 5 ∧ format_timestamp 90 = format_timestamp_spec 90) :=
  C9_format_timestamp_amended 90 (by norm_num)

/-- Counterexample to claim C9 as stated: at exactly one hour the source
prints `"60:00"` (minutes not wrapped, no hour field) where the spec's
format requires `"01:00:00"`. -/
theorem C9_format_timestamp_counterexample :
    format_timestamp 3600 = "60:00" ∧ format_timestamp_spec 3600 = "01:00:00" ∧
    format_timestamp 3600 ≠ format_timestamp_spec 3600 := by
  have h1 : ⌊(3600:ℚ) / 60⌋ = 60 := by
    rw [show (3600:ℚ) / 60 = ((60:ℤ) : ℚ) by norm_num]
    exact Int.floor_intCast 60
  have h2 : ⌊(3600:ℚ)⌋ = 3600 := by
    rw [show (3600:ℚ) = ((3600:ℤ) : ℚ) by norm_num]
    exact Int.floor_intCast 3600
  have h3 : format_timestamp 3600 = "60:00" := by
    rw [format_timestamp, format_secs_eq, h1, h2]
    decide
  have h4 : format_timestamp_spec 3600 = "01:00:00" := by
    rw [format_timestamp_spec, if_neg (by norm_num)]
    rw [show (3600:ℚ) / 3600 = ((1:ℤ) : ℚ) by norm_num, Int.floor_intCast, h2]
    decide
  exact ⟨h3, h4, by rw [h3, h4]; decide⟩

end MeetingTranscriber

/-! ## Claim C1: hybrid orchestration fallback -/

/-- Claim C1 (amended): with the external collaborator present, when the
collaborator's `diarize` call raises at the orchestrator boundary —
directly, or because its pipeline was never loaded — `diarize` with
`method="auto"` returns the local result stamped
`method_used = "local_clustering"`, and the caller observes no
exception.  (Errors the collaborator catches internally are returned as
an error result stamped `"pyannote"` without local fallback; see the
counterexample.) -/
theorem C1_hybrid_auto_fallback (e : String) (run : Except String DResult) (localR : DResult) :
    HybridDiarization.diarize "auto" true (.error e) (.ok localR) =
      .ok { localR with method_used := some "local_clustering" } ∧
    HybridDiarization.diarize "auto" true (PyAnnoteDiarization.diarize false run) (.ok localR) =
      .ok { localR with method_used := some "local_clustering" } :=
  ⟨rfl, rfl⟩

/-- Counterexample to claim C1 as stated: an error raised inside the
external path during the pipeline run is caught by the collaborator
itself (src/pyannote_diarization.py lines 159-167) and surfaces as an
error result with `method_used = "pyannote"` — the orchestrator performs
no local retry for it. -/
theorem C1_hybrid_counterexample :
    HybridDiarization.diarize "auto" true
        (PyAnnoteDiarization.diarize true (.error "CUDA error"))
        (.ok { segments := [], speakers := ["Speaker_0"], total_speakers := some 1,
               error := none, method_used := none }) =
      .ok { segments := [], speakers := [], total_speakers := some 0,
            error := some "CUDA error", method_used := some "pyannote" } ∧
    (some "pyannote" : Option String) ≠ some "local_clustering" :=
  ⟨rfl, by decide⟩

/-! ## Claim C8: error handling of the local path -/

/-- Claim C8 (amended): the local path converts a failed or empty
feature extraction into an error result (error set, segments empty)
without raising; but an exception from the clustering step — possible
for a constructor-supplied `n_speakers` the backend rejects — propagates
to the caller unhandled. -/
theorem C8_local_diarize_errors (time_windows : List (ℚ × ℚ))
    (backend : ℕ → Except String (List ℕ)) (ctor_n_speakers : Option ℕ)
    (estimated : ℕ) (hop : ℚ) (n_features : ℕ) (e : String) :
    (LocalDiarization.diarize 0 time_windows backend ctor_n_speakers estimated hop =
      .ok { segments := [], speakers := [], total_speakers := none,
            error := some "无法提取音频特征或未检测到语音", method_used := none }) ∧
    (LocalDiarization.cluster_speakers backend ctor_n_speakers estimated n_features = .error e →
      LocalDiarization.diarize n_features time_windows backend ctor_n_speakers estimated hop =
        .error e) := by
  constructor
  · rfl
  · intro hc
    have hn : n_features ≠ 0 := by
      intro h0
      subst h0
      simp [LocalDiarization.cluster_speakers] at hc
    simp only [LocalDiarization.diarize, if_neg hn, hc]
    rfl

/-- Witness for C8: a clustering backend that rejects a constructor
count of 10 on 3 feature windows makes the local path raise. -/
theorem C8_local_diarize_errors_witness :
    LocalDiarization.diarize 3 []
        (fun n => if n ≤ 3 then .ok [0, 0, 0] else .error "ValueError")
        (some 10) 2 1 = .error "ValueError" :=
  (C8_local_diarize_errors [] (fun n => if n ≤ 3 then .ok [0, 0, 0] else .error "ValueError")
    (some 10) 2 1 3 "ValueError").2 rfl

/-- Counterexample to claim C8 as stated: with constructor-supplied
`n_speakers = 10` and only 3 feature windows (a backend failure exactly
as sklearn's agglomerative clustering raises when asked for more
clusters than samples) the exception escapes `diarize` instead of an
error result being returned. -/
theorem C8_local_diarize_counterexample :
    LocalDiarization.diarize 3 [(0, 2), (1, 3), (2, 4)]
        (fun n => if n ≤ 3 then .ok [0, 0, 0]
                  else .error "ValueError: Cannot extract more clusters than samples")
        (some 10) 2 1 =
      .error "ValueError: Cannot extract more clusters than samples" ∧
    ∀ r : DResult,
      (Except.error "ValueError: Cannot extract more clusters than samples" :
        Except String DResult) ≠ .ok r :=
  ⟨rfl, fun _ h => Except.noConfusion h⟩

/-! ## Claim C10: speakers, labels and merging -/

theorem toDigitsCore_digits (fuel : ℕ) : ∀ (n : ℕ) (acc : List Char), n < fuel →
    Nat.toDigitsCore 10 fuel n acc =
      (if n = 0 then ['0'] else ((Nat.digits 10 n).map Nat.digitChar).reverse) ++ acc := by
  induction fuel with
  | zero => intro n acc h; exact absurd h (Nat.not_lt_zero n)
  | succ fuel ih =>
    intro n acc h
    simp only [Nat.toDigitsCore]
    by_cases h0 : n = 0
    · subst h0
      norm_num
      decide
    · rw [if_neg h0]
      by_cases hd : n / 10 = 0
      · rw [if_pos hd]
        have hn10 : n < 10 := by omega
        rw [Nat.digits_of_lt 10 n h0 hn10]
        simp [Nat.mod_eq_of_lt hn10]
      · rw [if_neg hd]
        have hlt : n / 10 < fuel := by
          have h1 : n / 10 < n := Nat.div_lt_self (Nat.pos_of_ne_zero h0) (by norm_num)
          omega
        rw [ih (n / 10) (Nat.digitChar (n % 10) :: acc) hlt, if_neg hd]
        rw [Nat.digits_def' (by norm_num : (1:ℕ) < 10) (Nat.pos_of_ne_zero h0)]
        simp

theorem natRepr_eq (n : ℕ) :
    Nat.repr n =
      ((if n = 0 then ['0'] else ((Nat.digits 10 n).map Nat.digitChar).reverse)).asString := by
  have h1 : Nat.repr n = (Nat.toDigitsCore 10 (n + 1) n []).asString := rfl
  rw [h1, toDigitsCore_digits (n + 1) n [] (Nat.lt_succ_self n), List.append_nil]

theorem digitChar_inj_lt :
    ∀ a, a < 10 → ∀ b, b < 10 → Nat.digitChar a = Nat.digitChar b → a = b := by decide

theorem digits_map_digitChar_inj : ∀ (l1 l2 : List ℕ),
    (∀ x ∈ l1, x < 10) → (∀ x ∈ l2, x < 10) →
    l1.map Nat.digitChar = l2.map Nat.digitChar → l1 = l2 := by
  intro l1
  induction l1 with
  | nil =>
    intro l2 _ _ h
    cases l2 with
    | nil => rfl
    | cons b bs => simp at h
  | cons a as ih =>
    intro l2 h1 h2 h
    cases l2 with
    | nil => simp at h
    | cons b bs =>
      simp only [List.map_cons, List.cons.injEq] at h
      have hab := digitChar_inj_lt a (h1 a (List.mem_cons_self a as))
        b (h2 b (List.mem_cons_self b bs)) h.1
      rw [hab, ih bs (fun x hx => h1 x (List.mem_cons_of_mem a hx))
        (fun x hx => h2 x (List.mem_cons_of_mem b hx)) h.2]

theorem asString_inj {l1 l2 : List Char} (h : l1.asString = l2.asString) : l1 = l2 := by
  simpa [List.asString] using congrArg String.data h

theorem digitsRev_ne_singleton_zero (n : ℕ) (hn : n ≠ 0) :
    ((Nat.digits 10 n).map Nat.digitChar).reverse ≠ ['0'] := by
  intro hcontr
  have hmap : (Nat.digits 10 n).map Nat.digitChar = ['0'] := by
    have := congrArg List.reverse hcontr
    simpa using this
  cases hdig : Nat.digits 10 n with
  | nil => rw [hdig] at hmap; simp at hmap
  | cons d ds =>
    rw [hdig] at hmap
    cases ds with
    | cons _ _ => simp at hmap
    | nil =>
      simp only [List.map_cons, List.map_nil, List.cons.injEq, and_true] at hmap
      have hdlt : d < 10 :=
        Nat.digits_lt_base (by norm_num) (by rw [hdig]; exact List.mem_cons_self d [])
      have hd0 : d = 0 :=
        digitChar_inj_lt d hdlt 0 (by norm_num) (by rw [hmap]; rfl)
      have hofd := Nat.ofDigits_digits 10 n
      rw [hdig, hd0] at hofd
      simp [Nat.ofDigits_cons, Nat.ofDigits_nil] at hofd
      exact hn hofd.symm

theorem natRepr_injective : Function.Injective Nat.repr := by
  intro m n h
  rw [natRepr_eq, natRepr_eq] at h
  have hl := asString_inj h
  by_cases hm : m = 0 <;> by_cases hn : n = 0
  · rw [hm, hn]
  · rw [if_pos hm, if_neg hn] at hl
    exact absurd hl.symm (digitsRev_ne_singleton_zero n hn)
  · rw [if_neg hm, if_pos hn] at hl
    exact absurd hl (digitsRev_ne_singleton_zero m hm)
  · rw [if_neg hm, if_neg hn] at hl
    have hmaps := List.reverse_injective hl
    have hdig := digits_map_digitChar_inj _ _
      (fun x hx => Nat.digits_lt_base (by norm_num) hx)
      (fun x hx => Nat.digits_lt_base (by norm_num) hx) hmaps
    exact Nat.digits_inj_iff.mp hdig

theorem mkSpeaker_injective : Function.Injective mkSpeaker := by
  intro a b h
  apply natRepr_injective
  have hd := congrArg String.data h
  simp only [mkSpeaker, String.data_append] at hd
  have hrepr := List.append_cancel_left hd
  cases hra : Nat.repr a with
  | mk d1 =>
    cases hrb : Nat.repr b with
    | mk d2 =>
      rw [hra, hrb] at hrepr
      have hdd : d1 = d2 := by simpa using hrepr
      rw [hdd]

theorem mergeRec_speaker_mem (tol : ℚ) (xs : List Seg) (sp : String) :
    sp ∈ (LocalDiarization.mergeRec tol xs).map Seg.speaker ↔ sp ∈ xs.map Seg.speaker := by
  induction xs using LocalDiarization.mergeRec.induct tol with
  | case1 => simp [LocalDiarization.mergeRec]
  | case2 s => simp [LocalDiarization.mergeRec]
  | case3 s0 s1 rest h ih =>
    rw [LocalDiarization.mergeRec, if_pos h]
    rw [ih]
    simp only [List.map_cons, List.mem_cons]
    rw [h.1]
    tauto
  | case4 s0 s1 rest h ih =>
    rw [LocalDiarization.mergeRec, if_neg h]
    simp only [List.map_cons, List.mem_cons]
    rw [ih]
    simp

theorem merge_speaker_mem (tol : ℚ) (xs : List Seg) (sp : String) :
    sp ∈ (LocalDiarization.merge_consecutive_segments tol xs).map Seg.speaker ↔
      sp ∈ xs.map Seg.speaker := by
  rw [LocalDiarization.merge_eq_mergeRec]
  exact mergeRec_speaker_mem tol xs sp

theorem zipWith_speaker_eq (ws : List (ℚ × ℚ)) : ∀ (ls : List ℕ), ls.length = ws.length →
    (List.zipWith (fun (w : ℚ × ℚ) (l : ℕ) => Seg.mk w.1 w.2 (mkSpeaker l)) ws ls).map
        Seg.speaker = ls.map mkSpeaker := by
  induction ws with
  | nil => intro ls h; rw [List.length_nil] at h; rw [List.eq_nil_of_length_eq_zero h]; rfl
  | cons w ws ih =>
    intro ls h
    cases ls with
    | nil => simp at h
    | cons l ls' =>
      simp only [List.zipWith_cons_cons, List.map_cons]
      rw [ih ls' (by simpa using h)]

/-- Claim C10: for a local diarization run (one cluster label per time
window), the result's `speakers` list is duplicate-free and contains
exactly the distinct speaker labels occurring in the returned merged
segments, and `total_speakers` equals the number of distinct cluster
labels, which equals the size of the `speakers` list — merging never
eliminates a speaker entirely. -/
theorem C10_format_result_speakers (hop : ℚ) (time_windows : List (ℚ × ℚ)) (labels : List ℕ)
    (h : labels.length = time_windows.length) :
    (LocalDiarization.format_result hop time_windows labels).speakers.Nodup ∧
    (∀ sp, sp ∈ (LocalDiarization.format_result hop time_windows labels).speakers ↔
      sp ∈ (LocalDiarization.format_result hop time_windows labels).segments.map Seg.speaker) ∧
    (LocalDiarization.format_result hop time_windows labels).total_speakers =
      some (LocalDiarization.format_result hop time_windows labels).speakers.length := by
  refine ⟨List.nodup_dedup _, fun sp => List.mem_dedup, ?_⟩
  simp only [LocalDiarization.format_result, Option.some.injEq]
  rw [← List.card_toFinset, ← List.card_toFinset]
  have hsets : ((LocalDiarization.merge_consecutive_segments (hop * (3 / 2))
      (List.zipWith (fun (w : ℚ × ℚ) (l : ℕ) => Seg.mk w.1 w.2 (mkSpeaker l))
        time_windows labels)).map Seg.speaker).toFinset =
      (labels.map mkSpeaker).toFinset := by
    apply Finset.ext
    intro x
    rw [List.mem_toFinset, List.mem_toFinset, merge_speaker_mem, zipWith_speaker_eq _ _ h]
  rw [hsets]
  have himg : (labels.map mkSpeaker).toFinset = labels.toFinset.image mkSpeaker := by
    apply Finset.ext
    intro x
    simp [List.mem_toFinset, Finset.mem_image, List.mem_map]
  rw [himg, Finset.card_image_of_injective _ mkSpeaker_injective]

/-- Witness for C10 on two overlapping windows with one shared label. -/
theorem C10_format_result_speakers_witness :
    (LocalDiarization.format_result 1 [(0, 2), (1, 3)] [0, 0]).speakers.Nodup ∧
    (∀ sp, sp ∈ (LocalDiarization.format_result 1 [(0, 2), (1, 3)] [0, 0]).speakers ↔
      sp ∈ (LocalDiarization.format_result 1 [(0, 2), (1, 3)] [0, 0]).segments.map Seg.speaker) ∧
    (LocalDiarization.format_result 1 [(0, 2), (1, 3)] [0, 0]).total_speakers =
      some (LocalDiarization.format_result 1 [(0, 2), (1, 3)] [0, 0]).speakers.length :=
  C10_format_result_speakers 1 [(0, 2), (1, 3)] [0, 0] rfl
